import Mathlib

/-!
Verification of the hierarchy-to-CSV flattening logic of
`src/frontend/src/utils/csvExport.ts` against its specification.

The embedding models JavaScript strings as Lean `String` (a list of
characters), the `HierarchyNode` interface of `src/frontend/src/types.ts`
as a nested inductive, and the mutable `rows` accumulator of the source's
`traverse` closure as a returned list.  The source pushes
`row.map(escapeCSV).join(",")` for each emitted row; here `traverse`
collects the `row` arrays (the cell lists) and `convertToCSV` applies the
same `map escapeCSV` / `join ","` serialization to each of them, so that
the composition is exactly the source computation.
-/

namespace CsvExport

/-- The `HierarchyNode` interface of `src/frontend/src/types.ts`:
`name: string; value: number; description?: string; children?: HierarchyNode[]`.
The optional `children` field is kept as an `Option` so that an absent
field and a present-but-empty array stay distinguishable, as in the
source. -/
inductive HierarchyNode : Type where
  | mk (name : String) (value : Int) (description : Option String)
      (children : Option (List HierarchyNode)) : HierarchyNode

namespace HierarchyNode

/-- Field accessor for `name`. -/
def name : HierarchyNode → String
  | .mk n _ _ _ => n

/-- Field accessor for `value`. -/
def value : HierarchyNode → Int
  | .mk _ v _ _ => v

/-- Field accessor for `description`. -/
def description : HierarchyNode → Option String
  | .mk _ _ d _ => d

/-- Field accessor for `children`. -/
def children : HierarchyNode → Option (List HierarchyNode)
  | .mk _ _ _ c => c

/-- The list of children, with an absent `children` field read as the
empty list (the two are treated identically by every code path of the
source). -/
def childList (n : HierarchyNode) : List HierarchyNode :=
  n.children.getD []

end HierarchyNode

/-- Model of the JavaScript test `str.includes(c)` for a one-character
needle: membership of the character in the string. -/
def containsChar (s : String) (c : Char) : Bool :=
  s.data.contains c

/-- Character-level model of the regex replacement `str.replace(/"/g, '""')`:
every double-quote character is doubled, all other characters are kept. -/
def doubleQuotesList (l : List Char) : List Char :=
  l.flatMap fun c => if c = '"' then ['"', '"'] else [c]

/-- String form of `doubleQuotesList`. -/
def doubleQuotes (s : String) : String :=
  ⟨doubleQuotesList s.data⟩

/-- The `escapeCSV` helper of `convertToCSV`
(`src/frontend/src/utils/csvExport.ts`, lines 10-15): a cell containing a
comma, a double quote or a newline is wrapped in double quotes with the
internal double quotes doubled; any other cell is returned unchanged. -/
def escapeCSV (s : String) : String :=
  if containsChar s ',' || containsChar s '"' || containsChar s '\n' then
    "\"" ++ doubleQuotes s ++ "\""
  else s

/-- The `while (row.length < 3) row.push("")` padding of `traverse`:
right-pad the cell list with empty strings up to 3 entries. -/
def padTo3 (row : List String) : List String :=
  row ++ List.replicate (3 - row.length) ""

/-- The serialization `row.map(escapeCSV).join(",")` applied to each
emitted row by the source. -/
def serializeRow (row : List String) : String :=
  ",".intercalate (row.map escapeCSV)

mutual

/-- The `traverse` closure of `convertToCSV`
(`src/frontend/src/utils/csvExport.ts`, lines 17-43), with the imperative
`rows.push` accumulation returned as a list of cell rows.  Depth 0 skips
the root and recurses into its children (if any) at depth 1 with an empty
path; at depth ≥ 1 a node with no children (absent or empty) or at depth 3
emits the padded current path as one row, and any other node recurses into
its children with the extended path. -/
def traverse : HierarchyNode → Nat → List String → List (List String)
  | .mk name _ _ children, depth, path =>
    if depth = 0 then
      match children with
      | some cs => traverseList cs (depth + 1) []
      | none => []
    else
      let currentPath := path ++ [name]
      match children with
      | none => [padTo3 currentPath]
      | some cs =>
        if cs.isEmpty || depth == 3 then [padTo3 currentPath]
        else traverseList cs (depth + 1) currentPath

/-- The `children.forEach(child => traverse(child, ...))` loop: traversal
of a list of siblings in order, concatenating their rows. -/
def traverseList : List HierarchyNode → Nat → List String → List (List String)
  | [], _, _ => []
  | c :: rest, depth, path => traverse c depth path ++ traverseList rest depth path

end

/-- The exported `convertToCSV` (`src/frontend/src/utils/csvExport.ts`,
lines 7-47): the fixed header followed by the serialized rows of the
traversal started at the root with depth 0 and an empty path, joined by
single newlines. -/
def convertToCSV (data : HierarchyNode) : String :=
  "\n".intercalate ("Depth1,Depth2,Depth3" :: (traverse data 0 []).map serializeRow)

/-- The inverse cell transformation named by the specification's escaping
law: collapse every doubled double quote back to a single one. -/
def collapseQuotes : List Char → List Char
  | [] => []
  | [c] => [c]
  | c1 :: c2 :: rest =>
    if c1 = '"' ∧ c2 = '"' then '"' :: collapseQuotes rest
    else c1 :: collapseQuotes (c2 :: rest)

/-- Strip the surrounding double quotes of a quoted cell: drop a leading
double quote together with the final character (the closing quote). -/
def stripOuterQuotes : List Char → List Char
  | '"' :: rest => rest.dropLast
  | l => l

/-- The CSV unescape operation of the specification's escaping law: strip
the surrounding double quotes, then replace each doubled double quote by a
single one. -/
def unescapeCSV (s : String) : String :=
  ⟨collapseQuotes (stripOuterQuotes s.data)⟩

mutual

/-- Claim-side count (claim C1, following its words): a node is terminal
when its `children` field is absent or empty, or the node sits at depth 3;
`terminalsWithin n depth` counts the terminal nodes reachable within depth
3 in the subtree rooted at `n` placed at `depth`.  The root (depth 0) is
the specification's never-emitted container node, so it is not itself
counted; recursion stops at terminals, so no node below depth 3 is
reached. -/
def terminalsWithin : HierarchyNode → Nat → Nat
  | .mk _ _ _ none, depth => if 1 ≤ depth then 1 else 0
  | .mk _ _ _ (some cs), depth =>
    if 1 ≤ depth ∧ (cs.isEmpty || depth == 3) then 1
    else terminalsWithinList cs (depth + 1)

/-- Sum of `terminalsWithin` over a list of siblings at a common depth. -/
def terminalsWithinList : List HierarchyNode → Nat → Nat
  | [], _ => 0
  | c :: rest, depth => terminalsWithin c depth + terminalsWithinList rest depth

end

mutual

/-- Deletion of every subtree lying below depth 3 (claim C2): the children
sequence of a node at depth 3 is emptied; nothing else in the tree
changes. -/
def pruneAt3 : HierarchyNode → Nat → HierarchyNode
  | .mk name v d none, _ => .mk name v d none
  | .mk name v d (some cs), depth =>
    if 3 ≤ depth then .mk name v d (some [])
    else .mk name v d (some (pruneAt3List cs (depth + 1)))

/-- `pruneAt3` mapped over a list of siblings at a common depth. -/
def pruneAt3List : List HierarchyNode → Nat → List HierarchyNode
  | [], _ => []
  | c :: rest, depth => pruneAt3 c depth :: pruneAt3List rest depth

end

mutual

/-- All downward name paths starting at a node: the path stopping at the
node itself, and the node's name prepended to every path of each child (in
sibling order). -/
def nodePaths : HierarchyNode → List (List String)
  | .mk name _ _ none => [[name]]
  | .mk name _ _ (some cs) => [name] :: (nodePathsList cs).map fun p => name :: p

/-- Concatenation of `nodePaths` over a list of siblings. -/
def nodePathsList : List HierarchyNode → List (List String)
  | [] => []
  | c :: rest => nodePaths c ++ nodePathsList rest

end

mutual

/-- Fuel-indexed variant of `traverse` (claim C8): each recursive descent
consumes one unit of fuel and exhausted fuel reports failure (`none`).
Running out of fuel is the only failure mode, so
`traverseFuel fuel n depth path = some rows` states that the traversal
reaches no deeper than `fuel` nested calls and finishes normally. -/
def traverseFuel : Nat → HierarchyNode → Nat → List String → Option (List (List String))
  | 0, _, _, _ => none
  | fuel + 1, .mk name _ _ children, depth, path =>
    if depth = 0 then
      match children with
      | some cs => traverseListFuel fuel cs (depth + 1) []
      | none => some []
    else
      let currentPath := path ++ [name]
      match children with
      | none => some [padTo3 currentPath]
      | some cs =>
        if cs.isEmpty || depth == 3 then some [padTo3 currentPath]
        else traverseListFuel fuel cs (depth + 1) currentPath
termination_by fuel _ _ _ => (fuel, 0)

/-- Fuel-indexed sibling traversal: the same fuel is handed to every
sibling, and any child failure propagates. -/
def traverseListFuel : Nat → List HierarchyNode → Nat → List String → Option (List (List String))
  | _, [], _, _ => some []
  | fuel, c :: rest, depth, path =>
    match traverseFuel fuel c depth path with
    | none => none
    | some r =>
      match traverseListFuel fuel rest depth path with
      | none => none
      | some rs => some (r ++ rs)
termination_by fuel cs _ _ => (fuel, cs.length + 1)

end

/-- Fuel-indexed variant of `convertToCSV`. -/
def convertToCSVFuel (fuel : Nat) (data : HierarchyNode) : Option String :=
  (traverseFuel fuel data 0 []).map fun rows =>
    "\n".intercalate ("Depth1,Depth2,Depth3" :: rows.map serializeRow)

/-- The export-time inputs of `exportHierarchyToCSV` (claim C9): the clock
instant in whole seconds since the Unix epoch and the local timezone
offset, with local wall-clock time = UTC + `tzOffsetSeconds`. -/
structure JsDate where
  epochSeconds : Nat
  tzOffsetSeconds : Int

/-- Civil proleptic-Gregorian date `(year, month, day)` of a day count
since 1970-01-01, as rendered by the ISO date formatting of `Date`. -/
def civilFromDays (z0 : Nat) : Nat × Nat × Nat :=
  let z := z0 + 719468
  let era := z / 146097
  let doe := z % 146097
  let yoe := (doe - doe / 1460 + doe / 36524 - doe / 146096) / 365
  let doy := doe - (365 * yoe + yoe / 4 - yoe / 100)
  let mp := (5 * doy + 2) / 153
  let dy := doy - (153 * mp + 2) / 5 + 1
  let m := if mp < 10 then mp + 3 else mp - 9
  (if m ≤ 2 then yoe + era * 400 + 1 else yoe + era * 400, m, dy)

/-- Zero-padding to two digits, as in ISO date/time components. -/
def pad2 (n : Nat) : String :=
  if n < 10 then "0" ++ toString n else toString n

/-- Zero-padding of the year to four digits. -/
def pad4 (n : Nat) : String :=
  if n < 10 then "000" ++ toString n
  else if n < 100 then "00" ++ toString n
  else if n < 1000 then "0" ++ toString n
  else toString n

/-- `YYYY-MM-DD` rendering of a day count since the epoch. -/
def dateStringOfDays (days : Nat) : String :=
  let c := civilFromDays days
  pad4 c.1 ++ "-" ++ pad2 c.2.1 ++ "-" ++ pad2 c.2.2

/-- `HH-mm-ss` rendering of a second count within a day (the time part
after `replace(/:/g, '-')`). -/
def timeStringOfSecondOfDay (s : Nat) : String :=
  pad2 (s / 3600) ++ "-" ++ pad2 (s % 3600 / 60) ++ "-" ++ pad2 (s % 60)

/-- Model of `date.toISOString().split('T')[0]` in `exportHierarchyToCSV`:
the UTC calendar date of the instant. -/
def utcDateString (d : JsDate) : String :=
  dateStringOfDays (d.epochSeconds / 86400)

/-- The instant shifted to local wall-clock seconds. -/
def localEpochSeconds (d : JsDate) : Int :=
  (d.epochSeconds : Int) + d.tzOffsetSeconds

/-- Model of `date.toTimeString().split(' ')[0].replace(/:/g, '-')` in
`exportHierarchyToCSV`: the local wall-clock time of day with `-`
separators. -/
def localTimeString (d : JsDate) : String :=
  timeStringOfSecondOfDay ((localEpochSeconds d % 86400).toNat)

/-- The filename built by `exportHierarchyToCSV`
(`src/frontend/src/utils/csvExport.ts`, lines 72-90): the date part comes
from `toISOString` (UTC) and the time part from `toTimeString` (local). -/
def exportFilename (d : JsDate) : String :=
  "industry-analysis-" ++ utcDateString d ++ "-" ++ localTimeString d ++ ".csv"

/-- Modelled from the spec: the local calendar date of the instant, used
by the claimed naming. -/
def localDateString (d : JsDate) : String :=
  dateStringOfDays ((localEpochSeconds d / 86400).toNat)

/-- Modelled from the spec: the filename claimed by C9, with both the date
part and the time part taken from the local date/time of export. -/
def claimedFilename (d : JsDate) : String :=
  "industry-analysis-" ++ localDateString d ++ "-" ++ localTimeString d ++ ".csv"

/-- A childless node with the given name (value and description unused by
the flattening). -/
def leafNode (s : String) : HierarchyNode :=
  .mk s 0 none none

/-- Sample depth-1 subtree `A` with two leaf children. -/
def sampleA : HierarchyNode :=
  .mk "A" 0 none (some [leafNode "A1", leafNode "A2"])

/-- Sample depth-1 subtree `B` with one leaf child. -/
def sampleB : HierarchyNode :=
  .mk "B" 0 none (some [leafNode "B1"])

/-- Sample root whose depth-1 children are `sampleA` then `sampleB`. -/
def sampleRootAB : HierarchyNode :=
  .mk "Total" 0 none (some [sampleA, sampleB])

/-- Sample root with a present but empty children sequence. -/
def sampleRootEmpty : HierarchyNode :=
  .mk "Total" 0 none (some [])

/-- Root whose only depth-1 child `Tech` is a leaf (claim C10). -/
def sampleTechLeaf : HierarchyNode :=
  .mk "Total" 0 none (some [leafNode "Tech"])

/-- Root whose only depth-1 child `Tech` has a single child with the empty
string as name (claim C10). -/
def sampleTechEmptyName : HierarchyNode :=
  .mk "Total" 0 none (some [.mk "Tech" 0 none (some [leafNode ""])])

/-- Sample instant 1970-01-01 22:00:00 UTC in a UTC+9 timezone: the local
calendar date is already 1970-01-02. -/
def sampleDate : JsDate :=
  ⟨79200, 9 * 3600⟩

/-- The same instant in a UTC+0 timezone. -/
def sampleDateZeroOffset : JsDate :=
  ⟨79200, 0⟩

/-! ## Helper lemmas -/

/-- Strong induction over `HierarchyNode`: to prove a property of every
node it suffices to prove it for a node assuming it for all children. -/
theorem HierarchyNode.strongInd {motive : HierarchyNode → Prop}
    (ih : ∀ name value descr children,
      (∀ c, c ∈ (children.getD [] : List HierarchyNode) → motive c) →
      motive (.mk name value descr children)) :
    ∀ n, motive n
  | .mk nm v d children => ih nm v d children (fun c hc =>
      HierarchyNode.strongInd ih c)
termination_by n => sizeOf n
decreasing_by
  cases children with
  | none => simp at hc
  | some cs =>
    simp only [Option.getD] at hc
    have := List.sizeOf_lt_of_mem hc
    simp
    omega

theorem containsChar_iff (s : String) (c : Char) :
    containsChar s c = true ↔ c ∈ s.data := by
  simp [containsChar]

theorem doubleQuotesList_cons (c : Char) (t : List Char) :
    doubleQuotesList (c :: t) =
      (if c = '"' then ['"', '"'] else [c]) ++ doubleQuotesList t := by
  simp [doubleQuotesList]

theorem length_le_doubleQuotesList (l : List Char) :
    l.length ≤ (doubleQuotesList l).length := by
  induction l with
  | nil => simp [doubleQuotesList]
  | cons c t iht =>
    rw [doubleQuotesList_cons]
    split <;> simp <;> omega

theorem collapseQuotes_doubleQuotesList (l : List Char) :
    collapseQuotes (doubleQuotesList l) = l := by
  induction l with
  | nil => rfl
  | cons c t iht =>
    rw [doubleQuotesList_cons]
    by_cases hc : c = '"'
    · rw [if_pos hc, hc]
      show collapseQuotes ('"' :: '"' :: doubleQuotesList t) = '"' :: t
      rw [collapseQuotes, if_pos ⟨rfl, rfl⟩, iht]
    · rw [if_neg hc]
      cases t with
      | nil =>
        show collapseQuotes [c] = [c]
        rfl
      | cons t1 ts =>
        cases hdq : doubleQuotesList (t1 :: ts) with
        | nil =>
          rw [doubleQuotesList_cons] at hdq
          revert hdq
          split <;> simp
        | cons d1 drest =>
          show collapseQuotes (c :: d1 :: drest) = c :: t1 :: ts
          rw [collapseQuotes, if_neg (fun h => hc h.1), ← hdq, iht]

theorem quote_data : ("\"" : String).data = ['"'] := rfl

theorem escapeCSV_of_special {s : String}
    (h : ',' ∈ s.data ∨ '"' ∈ s.data ∨ '\n' ∈ s.data) :
    escapeCSV s = "\"" ++ doubleQuotes s ++ "\"" := by
  unfold escapeCSV
  rw [if_pos]
  simp only [Bool.or_eq_true, containsChar_iff, or_assoc]
  exact h

theorem escapeCSV_data_of_special {s : String}
    (h : ',' ∈ s.data ∨ '"' ∈ s.data ∨ '\n' ∈ s.data) :
    (escapeCSV s).data = '"' :: (doubleQuotesList s.data ++ ['"']) := by
  rw [escapeCSV_of_special h]
  rw [String.data_append, String.data_append, quote_data]
  rfl

theorem escapeCSV_of_not_special {s : String}
    (h : ¬(',' ∈ s.data ∨ '"' ∈ s.data ∨ '\n' ∈ s.data)) :
    escapeCSV s = s := by
  unfold escapeCSV
  rw [if_neg]
  simp only [Bool.or_eq_true, containsChar_iff, or_assoc]
  exact h

theorem escapeCSV_ne_of_special {s : String}
    (h : ',' ∈ s.data ∨ '"' ∈ s.data ∨ '\n' ∈ s.data) :
    escapeCSV s ≠ s := by
  intro he
  have hd := congrArg String.data he
  rw [escapeCSV_data_of_special h] at hd
  have hl := congrArg List.length hd
  simp only [List.length_cons, List.length_append, List.length_singleton] at hl
  have := length_le_doubleQuotesList s.data
  omega

theorem traverseList_eq_flatMap (cs : List HierarchyNode) (depth : Nat) (path : List String) :
    traverseList cs depth path = cs.flatMap fun c => traverse c depth path := by
  induction cs with
  | nil => simp [traverseList]
  | cons c rest ihr => simp [traverseList, ihr]

theorem traverse_zero_some (nm : String) (v : Int) (d : Option String)
    (cs : List HierarchyNode) (path : List String) :
    traverse (.mk nm v d (some cs)) 0 path = traverseList cs 1 [] := by
  simp [traverse]

theorem traverse_zero_none (nm : String) (v : Int) (d : Option String)
    (path : List String) :
    traverse (.mk nm v d none) 0 path = [] := by
  simp [traverse]

theorem traverse_pos_none (nm : String) (v : Int) (d : Option String)
    (depth : Nat) (path : List String) (h : depth ≠ 0) :
    traverse (.mk nm v d none) depth path = [padTo3 (path ++ [nm])] := by
  simp [traverse, h]

theorem traverse_pos_terminal (nm : String) (v : Int) (d : Option String)
    (depth : Nat) (path : List String) (cs : List HierarchyNode)
    (h : depth ≠ 0) (ht : (cs.isEmpty || depth == 3) = true) :
    traverse (.mk nm v d (some cs)) depth path = [padTo3 (path ++ [nm])] := by
  simp [traverse, h, ht]

theorem traverse_pos_recurse (nm : String) (v : Int) (d : Option String)
    (depth : Nat) (path : List String) (cs : List HierarchyNode)
    (h : depth ≠ 0) (ht : ¬(cs.isEmpty || depth == 3) = true) :
    traverse (.mk nm v d (some cs)) depth path = traverseList cs (depth + 1) (path ++ [nm]) := by
  simp [traverse, h, ht]

theorem traverse_length_eq_terminalsWithin (n : HierarchyNode) (depth : Nat)
    (path : List String) :
    (traverse n depth path).length = terminalsWithin n depth := by
  refine traverse.induct
    (fun n depth path => (traverse n depth path).length = terminalsWithin n depth)
    (fun cs depth path => (traverseList cs depth path).length = terminalsWithinList cs depth)
    ?_ ?_ ?_ ?_ ?_ ?_ ?_ n depth path
  · intro nm v d path cs ih
    rw [traverse_zero_some, terminalsWithin]
    simp only [show ¬(1 ≤ 0 ∧ (cs.isEmpty || 0 == 3) = true) from by omega, if_false]
    exact ih
  · intro nm v d path
    rw [traverse_zero_none, terminalsWithin]
    simp
  · intro nm v d depth path h
    rw [traverse_pos_none _ _ _ _ _ h, terminalsWithin, if_pos (by omega)]
    rfl
  · intro nm v d depth path h cs ht
    rw [traverse_pos_terminal _ _ _ _ _ _ h ht, terminalsWithin, if_pos ⟨by omega, ht⟩]
    rfl
  · intro nm v d depth path h cp cs ht ih
    rw [traverse_pos_recurse _ _ _ _ _ _ h ht, terminalsWithin,
      if_neg (fun hc => ht hc.2)]
    exact ih
  · intro depth path
    rfl
  · intro c rest depth path ih1 ih2
    rw [traverseList, terminalsWithinList, List.length_append, ih1, ih2]

theorem pruneAt3List_isEmpty (cs : List HierarchyNode) (depth : Nat) :
    (pruneAt3List cs depth).isEmpty = cs.isEmpty := by
  cases cs <;> simp [pruneAt3List]

theorem traverse_pruneAt3 (n : HierarchyNode) (depth : Nat) (path : List String) :
    depth ≤ 3 → traverse (pruneAt3 n depth) depth path = traverse n depth path := by
  refine traverse.induct
    (fun n depth path =>
      depth ≤ 3 → traverse (pruneAt3 n depth) depth path = traverse n depth path)
    (fun cs depth path =>
      depth ≤ 3 →
        traverseList (pruneAt3List cs depth) depth path = traverseList cs depth path)
    ?_ ?_ ?_ ?_ ?_ ?_ ?_ n depth path
  · intro nm v d path cs ih _
    rw [show pruneAt3 (.mk nm v d (some cs)) 0 =
        .mk nm v d (some (pruneAt3List cs 1)) from by simp [pruneAt3]]
    rw [traverse_zero_some, traverse_zero_some]
    exact ih (by omega)
  · intro nm v d path _
    rfl
  · intro nm v d depth path h _
    rfl
  · intro nm v d depth path h cs ht hd3
    by_cases h3 : depth = 3
    · subst h3
      rw [show pruneAt3 (.mk nm v d (some cs)) 3 = .mk nm v d (some []) from by
        simp [pruneAt3]]
      rw [traverse_pos_terminal _ _ _ _ _ _ h (by simp),
        traverse_pos_terminal _ _ _ _ _ _ h ht]
    · have hcs : cs = [] := by
        simp only [Bool.or_eq_true, beq_iff_eq, List.isEmpty_eq_true] at ht
        rcases ht with hc | hc
        · exact hc
        · exact absurd hc h3
      subst hcs
      rw [show pruneAt3 (.mk nm v d (some ([] : List HierarchyNode))) depth =
          .mk nm v d (some (pruneAt3List [] (depth + 1))) from by
        simp [pruneAt3, show ¬3 ≤ depth from by omega]]
      rw [show pruneAt3List ([] : List HierarchyNode) (depth + 1) = [] from rfl]
  · intro nm v d depth path h cp cs ht ih hd3
    have h3 : ¬depth = 3 := by
      intro h3
      exact ht (by simp [h3])
    rw [show pruneAt3 (.mk nm v d (some cs)) depth =
        .mk nm v d (some (pruneAt3List cs (depth + 1))) from by
      simp [pruneAt3, show ¬3 ≤ depth from by omega]]
    rw [traverse_pos_recurse _ _ _ _ _ _ h (by
        rw [pruneAt3List_isEmpty]
        exact ht),
      traverse_pos_recurse _ _ _ _ _ _ h ht]
    exact ih (by omega)
  · intro x y _
    rfl
  · intro c rest depth path ih1 ih2 hd3
    rw [show pruneAt3List (c :: rest) depth =
        pruneAt3 c depth :: pruneAt3List rest depth from rfl]
    rw [traverseList, traverseList, ih1 hd3, ih2 hd3]

theorem traverseList_row_shape (cs : List HierarchyNode) (depth : Nat)
    (path : List String) :
    1 ≤ depth → depth ≤ 3 → path.length + 1 = depth →
    ∀ row ∈ traverseList cs depth path, ∃ q ∈ nodePathsList cs,
      1 ≤ q.length ∧ path.length + q.length ≤ 3 ∧ row = padTo3 (path ++ q) := by
  refine traverseList.induct
    (fun n depth path => 1 ≤ depth → depth ≤ 3 → path.length + 1 = depth →
      ∀ row ∈ traverse n depth path, ∃ q ∈ nodePaths n,
        1 ≤ q.length ∧ path.length + q.length ≤ 3 ∧ row = padTo3 (path ++ q))
    (fun cs depth path => 1 ≤ depth → depth ≤ 3 → path.length + 1 = depth →
      ∀ row ∈ traverseList cs depth path, ∃ q ∈ nodePathsList cs,
        1 ≤ q.length ∧ path.length + q.length ≤ 3 ∧ row = padTo3 (path ++ q))
    ?_ ?_ ?_ ?_ ?_ ?_ ?_ cs depth path
  · intro nm v d path cs _ h1 _ _
    exact absurd h1 (by omega)
  · intro nm v d path h1 _ _
    exact absurd h1 (by omega)
  · intro nm v d depth path hne h1 h2 h3 row hrow
    rw [traverse_pos_none _ _ _ _ _ hne] at hrow
    rw [List.mem_singleton] at hrow
    subst hrow
    exact ⟨[nm], by simp [nodePaths], by simp, by simp; omega, rfl⟩
  · intro nm v d depth path hne cs ht h1 h2 h3 row hrow
    rw [traverse_pos_terminal _ _ _ _ _ _ hne ht] at hrow
    rw [List.mem_singleton] at hrow
    subst hrow
    exact ⟨[nm], by simp [nodePaths], by simp, by simp; omega, rfl⟩
  · intro nm v d depth path hne cp cs ht ih h1 h2 h3 row hrow
    have hcp : cp = path ++ [nm] := rfl
    have hd3 : depth ≠ 3 := by
      intro he
      exact ht (by simp [he])
    rw [traverse_pos_recurse _ _ _ _ _ _ hne ht] at hrow
    obtain ⟨q1, hq1, hq1one, hq1len, hrw⟩ :=
      ih (by omega) (by omega) (by rw [hcp]; simp; omega) row hrow
    rw [hcp] at hq1len hrw
    refine ⟨nm :: q1, ?_, by simp, ?_, ?_⟩
    · rw [show nodePaths (.mk nm v d (some cs)) =
        [nm] :: (nodePathsList cs).map (fun p => nm :: p) from rfl]
      exact List.mem_cons_of_mem _ (List.mem_map_of_mem _ hq1)
    · simp only [List.length_append, List.length_singleton] at hq1len
      simp only [List.length_cons]
      omega
    · rw [hrw]
      congr 1
      simp
  · intro x y h1 h2 h3 row hrow
    rw [show traverseList [] x y = [] from rfl] at hrow
    exact absurd hrow (by simp)
  · intro c rest depth path ih1 ih2 h1 h2 h3 row hrow
    rw [traverseList] at hrow
    rcases List.mem_append.1 hrow with hl | hr
    · obtain ⟨q, hq, hrest⟩ := ih1 h1 h2 h3 row hl
      exact ⟨q, by
        rw [show nodePathsList (c :: rest) = nodePaths c ++ nodePathsList rest from rfl]
        exact List.mem_append_left _ hq, hrest⟩
    · obtain ⟨q, hq, hrest⟩ := ih2 h1 h2 h3 row hr
      exact ⟨q, by
        rw [show nodePathsList (c :: rest) = nodePaths c ++ nodePathsList rest from rfl]
        exact List.mem_append_right _ hq, hrest⟩

theorem traverse_root_row_shape (t : HierarchyNode) (row : List String)
    (h : row ∈ traverse t 0 []) :
    ∃ q ∈ nodePathsList t.childList, 1 ≤ q.length ∧ q.length ≤ 3 ∧
      row = q ++ List.replicate (3 - q.length) "" := by
  obtain ⟨nm, v, d, ch⟩ := t
  cases ch with
  | none =>
    rw [traverse_zero_none] at h
    exact absurd h (by simp)
  | some cs =>
    rw [traverse_zero_some] at h
    obtain ⟨q, hq, h1, hlen, hrw⟩ :=
      traverseList_row_shape cs 1 [] (by omega) (by omega) (by simp) row h
    refine ⟨q, ?_, h1, by simpa using hlen, ?_⟩
    · simpa [HierarchyNode.childList, HierarchyNode.children] using hq
    · simpa [padTo3] using hrw

theorem traverse_row_length (t : HierarchyNode) (row : List String)
    (h : row ∈ traverse t 0 []) : row.length = 3 := by
  obtain ⟨q, hq, h1, hlen, hrw⟩ := traverse_root_row_shape t row h
  subst hrw
  simp only [List.length_append, List.length_replicate]
  omega

theorem comma_data : ("," : String).data = [','] := rfl

theorem newline_data : ("\n" : String).data = ['\n'] := rfl

theorem intercalate_go_data (sep acc : String) (as : List String) :
    (String.intercalate.go acc sep as).data =
      acc.data ++ as.flatMap fun a => sep.data ++ a.data := by
  induction as generalizing acc with
  | nil => simp [String.intercalate.go]
  | cons a rest ih =>
    rw [String.intercalate.go, ih]
    simp [String.data_append]

theorem intercalate_data (sep a : String) (as : List String) :
    (String.intercalate sep (a :: as)).data =
      a.data ++ as.flatMap fun x => sep.data ++ x.data := by
  rw [String.intercalate, intercalate_go_data]

theorem serializeRow_three_data (a b c : String) :
    (serializeRow [a, b, c]).data =
      (escapeCSV a).data ++
        ([','] ++ ((escapeCSV b).data ++ ([','] ++ (escapeCSV c).data))) := by
  unfold serializeRow
  rw [show [a, b, c].map escapeCSV = [escapeCSV a, escapeCSV b, escapeCSV c] from rfl,
    intercalate_data]
  simp [comma_data]

theorem serializeRow_three_ne_nil (a b c : String) :
    (serializeRow [a, b, c]).data ≠ [] := by
  rw [serializeRow_three_data]
  simp

theorem getLast?_escapeCSV_ne_newline (s : String) :
    (escapeCSV s).data.getLast? ≠ some '\n' := by
  by_cases h : ',' ∈ s.data ∨ '"' ∈ s.data ∨ '\n' ∈ s.data
  · rw [escapeCSV_data_of_special h,
      show ('"' :: (doubleQuotesList s.data ++ ['"'])) =
        ('"' :: doubleQuotesList s.data) ++ ['"'] from rfl,
      List.getLast?_concat]
    decide
  · rw [escapeCSV_of_not_special h]
    intro hl
    exact h (Or.inr (Or.inr (List.mem_of_getLast?_eq_some hl)))

theorem getLast?_serializeRow_ne_newline (a b c : String) :
    (serializeRow [a, b, c]).data.getLast? ≠ some '\n' := by
  rw [serializeRow_three_data]
  simp only [List.getLast?_append]
  cases hec : (escapeCSV c).data.getLast? with
  | none => simp [hec]
  | some x =>
    have hx := getLast?_escapeCSV_ne_newline c
    rw [hec] at hx
    simp only [hec, Option.or_some]
    exact hx

theorem getLast?_newline_blocks (rows : List String)
    (hall : ∀ r ∈ rows, r.data ≠ [] ∧ r.data.getLast? ≠ some '\n') :
    ∀ pre : List Char, pre.getLast? ≠ some '\n' →
      (pre ++ rows.flatMap fun r => '\n' :: r.data).getLast? ≠ some '\n' := by
  induction rows with
  | nil =>
    intro pre hpre
    simpa using hpre
  | cons r rest ih =>
    intro pre hpre
    rw [List.flatMap_cons, ← List.append_assoc]
    refine ih (fun x hx => hall x (List.mem_cons_of_mem _ hx)) _ ?_
    obtain ⟨hne, hlast⟩ := hall r (List.mem_cons_self _ _)
    rw [show ('\n' :: r.data) = ['\n'] ++ r.data from rfl, ← List.append_assoc,
      List.getLast?_append]
    cases hr : r.data.getLast? with
    | none => exact absurd (List.getLast?_eq_none_iff.1 hr) hne
    | some x =>
      rw [hr] at hlast
      simpa using hlast

theorem convertToCSV_data (t : HierarchyNode) :
    (convertToCSV t).data = ("Depth1,Depth2,Depth3" : String).data ++
      ((traverse t 0 []).map serializeRow).flatMap fun r => '\n' :: r.data := by
  unfold convertToCSV
  rw [intercalate_data]
  rfl

theorem fuel_complete (fuel : Nat) :
    (∀ (n : HierarchyNode) (depth : Nat) (path : List String),
      depth ≤ 3 → 4 - depth ≤ fuel →
      traverseFuel fuel n depth path = some (traverse n depth path)) ∧
    (∀ (cs : List HierarchyNode) (depth : Nat) (path : List String),
      depth ≤ 3 → 4 - depth ≤ fuel →
      traverseListFuel fuel cs depth path = some (traverseList cs depth path)) := by
  induction fuel with
  | zero =>
    constructor
    · intro n depth path h1 h2
      exact absurd h2 (by omega)
    · intro cs depth path h1 h2
      exact absurd h2 (by omega)
  | succ f ih =>
    have hP : ∀ (n : HierarchyNode) (depth : Nat) (path : List String),
        depth ≤ 3 → 4 - depth ≤ f + 1 →
        traverseFuel (f + 1) n depth path = some (traverse n depth path) := by
      intro n depth path h1 h2
      obtain ⟨nm, v, d, ch⟩ := n
      by_cases h0 : depth = 0
      · subst h0
        cases ch with
        | none =>
          rw [traverse_zero_none]
          simp [traverseFuel]
        | some cs =>
          rw [traverse_zero_some]
          rw [show traverseFuel (f + 1) (.mk nm v d (some cs)) 0 path =
            traverseListFuel f cs 1 [] from by simp [traverseFuel]]
          exact ih.2 cs 1 [] (by omega) (by omega)
      · cases ch with
        | none =>
          rw [traverse_pos_none _ _ _ _ _ h0]
          simp [traverseFuel, h0]
        | some cs =>
          by_cases ht : (cs.isEmpty || depth == 3) = true
          · rw [traverse_pos_terminal _ _ _ _ _ _ h0 ht]
            simp [traverseFuel, h0, ht]
          · rw [traverse_pos_recurse _ _ _ _ _ _ h0 ht]
            rw [show traverseFuel (f + 1) (.mk nm v d (some cs)) depth path =
              traverseListFuel f cs (depth + 1) (path ++ [nm]) from by
                simp [traverseFuel, h0, ht]]
            have hd3 : depth ≠ 3 := by
              intro he
              exact ht (by simp [he])
            exact ih.2 cs (depth + 1) (path ++ [nm]) (by omega) (by omega)
    refine ⟨hP, ?_⟩
    intro cs depth path h1 h2
    induction cs with
    | nil => simp [traverseListFuel, traverseList]
    | cons c rest ihr =>
      rw [show traverseList (c :: rest) depth path =
        traverse c depth path ++ traverseList rest depth path from rfl]
      have hc := hP c depth path h1 h2
      simp [traverseListFuel, hc, ihr]

/-! ## Claim theorems -/

/-- C4: `escapeCSV` wraps a cell in double quotes with every internal
double quote doubled exactly when the cell contains a comma, a double
quote or a newline, and returns the cell unchanged (unquoted) otherwise;
in particular the value `Shoes, "Best"` is emitted as
`"Shoes, ""Best"""`. -/
theorem c4_escapeCSV_characterization :
    (∀ s : String,
      ((',' ∈ s.data ∨ '"' ∈ s.data ∨ '\n' ∈ s.data) →
        (escapeCSV s).data = '"' :: (doubleQuotesList s.data ++ ['"'])) ∧
      (escapeCSV s = s ↔ ¬(',' ∈ s.data ∨ '"' ∈ s.data ∨ '\n' ∈ s.data))) ∧
    escapeCSV "Shoes, \"Best\"" = "\"Shoes, \"\"Best\"\"\"" := by
  refine ⟨fun s => ⟨fun h => escapeCSV_data_of_special h, ⟨?_, ?_⟩⟩, by decide⟩
  · intro he hsp
    exact escapeCSV_ne_of_special hsp he
  · exact escapeCSV_of_not_special

/-- Witness for C4 at the concrete cell `a,b`. -/
theorem c4_witness :
    (',' ∈ ("a,b" : String).data ∨ '"' ∈ ("a,b" : String).data ∨
      '\n' ∈ ("a,b" : String).data) ∧
    (escapeCSV "a,b").data = '"' :: (doubleQuotesList ("a,b" : String).data ++ ['"']) :=
  ⟨by decide, (c4_escapeCSV_characterization.1 "a,b").1 (by decide)⟩

/-- C5: for every cell containing a comma, a double quote or a newline,
applying the CSV unescape operation (strip the surrounding double quotes,
replace each doubled double quote by a single one) to `escapeCSV` of the
cell recovers the cell exactly. -/
theorem c5_escape_roundtrip (s : String)
    (h : ',' ∈ s.data ∨ '"' ∈ s.data ∨ '\n' ∈ s.data) :
    unescapeCSV (escapeCSV s) = s := by
  unfold unescapeCSV
  rw [escapeCSV_data_of_special h]
  have h1 : stripOuterQuotes ('"' :: (doubleQuotesList s.data ++ ['"'])) =
      (doubleQuotesList s.data ++ ['"']).dropLast := rfl
  rw [h1, List.dropLast_concat, collapseQuotes_doubleQuotesList]

/-- Witness for C5 at the concrete cell `a,b`. -/
theorem c5_witness :
    (',' ∈ ("a,b" : String).data ∨ '"' ∈ ("a,b" : String).data ∨
      '\n' ∈ ("a,b" : String).data) ∧
    unescapeCSV (escapeCSV "a,b") = "a,b" :=
  ⟨by decide, c5_escape_roundtrip "a,b" (by decide)⟩

/-- C1: the number of data rows (lines after the header) produced by
`convertToCSV` equals the number of terminal nodes reachable within depth
3, a node being terminal when its `children` field is absent or empty or
when it sits at depth 3 (root = depth 0, its children = depth 1; the root
is the container node whose label is never emitted). -/
theorem c1_row_count (t : HierarchyNode) :
    ((traverse t 0 []).map serializeRow).length = terminalsWithin t 0 := by
  rw [List.length_map]
  exact traverse_length_eq_terminalsWithin t 0 []

/-- C3: for sibling depth-1 subtrees `A` before `B` in the root's children
sequence, the output rows decompose as the concatenation of the blocks of
the successive children in order, so every row produced from `A` appears
strictly before every row produced from `B`, and the rows of each depth-1
subtree are contiguous (pre-order, depth-first, left-to-right). -/
theorem c3_sibling_order (root A B : HierarchyNode) (xs ys zs : List HierarchyNode)
    (h : root.children = some (xs ++ A :: (ys ++ B :: zs))) :
    traverse root 0 [] =
      (xs.flatMap fun c => traverse c 1 []) ++
        (traverse A 1 [] ++
          ((ys.flatMap fun c => traverse c 1 []) ++
            (traverse B 1 [] ++ (zs.flatMap fun c => traverse c 1 [])))) := by
  obtain ⟨nm, v, d, ch⟩ := root
  simp only [HierarchyNode.children] at h
  subst h
  rw [traverse_zero_some, traverseList_eq_flatMap]
  simp [List.flatMap_append]

/-- Witness for C3 on the concrete root with children `A` then `B`. -/
theorem c3_witness :
    sampleRootAB.children = some ([] ++ sampleA :: ([] ++ sampleB :: [])) ∧
    traverse sampleRootAB 0 [] =
      (([] : List HierarchyNode).flatMap fun c => traverse c 1 []) ++
        (traverse sampleA 1 [] ++
          ((([] : List HierarchyNode).flatMap fun c => traverse c 1 []) ++
            (traverse sampleB 1 [] ++
              (([] : List HierarchyNode).flatMap fun c => traverse c 1 [])))) :=
  ⟨rfl, c3_sibling_order sampleRootAB sampleA sampleB [] [] [] rfl⟩

/-- C2: a node placed at depth 3 yields exactly one row (the padded path
through it), whatever its children, so nothing below depth 3 is emitted or
recursed into; equivalently, deleting every subtree below depth 3 from the
input leaves the output of `convertToCSV` unchanged. -/
theorem c2_depth3_truncation :
    (∀ (nm : String) (v : Int) (d : Option String)
        (ch : Option (List HierarchyNode)) (path : List String),
      traverse (.mk nm v d ch) 3 path = [padTo3 (path ++ [nm])]) ∧
    ∀ t : HierarchyNode, convertToCSV (pruneAt3 t 0) = convertToCSV t := by
  constructor
  · intro nm v d ch path
    cases ch with
    | none => exact traverse_pos_none _ _ _ _ _ (by omega)
    | some cs => exact traverse_pos_terminal _ _ _ _ _ _ (by omega) (by simp)
  · intro t
    unfold convertToCSV
    rw [traverse_pruneAt3 t 0 [] (by omega)]

/-- C6: every data row consists of exactly 3 cells, the first cells being
the node names along the path from a depth-1 node down to the emitted node
(a path of the tree of length 1 to 3), the remaining cells being empty
strings (right-padding only). -/
theorem c6_row_shape (t : HierarchyNode) (row : List String)
    (h : row ∈ traverse t 0 []) :
    row.length = 3 ∧
    ∃ q ∈ nodePathsList t.childList, 1 ≤ q.length ∧ q.length ≤ 3 ∧
      row = q ++ List.replicate (3 - q.length) "" :=
  ⟨traverse_row_length t row h, traverse_root_row_shape t row h⟩

/-- Witness for C6 on a concrete tree and row. -/
theorem c6_witness :
    (["Tech", "", ""] ∈ traverse sampleTechLeaf 0 []) ∧
    (["Tech", "", ""] : List String).length = 3 ∧
    ∃ q ∈ nodePathsList sampleTechLeaf.childList, 1 ≤ q.length ∧ q.length ≤ 3 ∧
      ["Tech", "", ""] = q ++ List.replicate (3 - q.length) "" :=
  ⟨by decide, c6_row_shape sampleTechLeaf ["Tech", "", ""] (by decide)⟩

/-- C7: the output of `convertToCSV` starts with the exact header line
`Depth1,Depth2,Depth3` occurring once before any data row, the data rows
follow it each preceded by exactly one newline (rows joined by a single
`\n`), the blob never ends with a newline, and a root with no children
(absent or empty `children`) yields exactly the header line. -/
theorem c7_header_and_join (t : HierarchyNode) :
    (convertToCSV t).data = ("Depth1,Depth2,Depth3" : String).data ++
      ((traverse t 0 []).map serializeRow).flatMap (fun r => '\n' :: r.data) ∧
    (convertToCSV t).data.getLast? ≠ some '\n' ∧
    ((t.children = none ∨ t.children = some ([] : List HierarchyNode)) →
      convertToCSV t = "Depth1,Depth2,Depth3") := by
  refine ⟨convertToCSV_data t, ?_, ?_⟩
  · rw [convertToCSV_data t]
    refine getLast?_newline_blocks _ ?_ _ (by decide)
    intro r hr
    obtain ⟨row, hrow, rfl⟩ := List.mem_map.1 hr
    have hlen := traverse_row_length t row hrow
    obtain ⟨a, b, c, rfl⟩ := List.length_eq_three.1 hlen
    exact ⟨serializeRow_three_ne_nil a b c, getLast?_serializeRow_ne_newline a b c⟩
  · intro hch
    obtain ⟨nm, v, d, ch⟩ := t
    simp only [HierarchyNode.children] at hch
    rcases hch with h | h
    · subst h
      rfl
    · subst h
      rfl

/-- Witness for C7 on a root with a present but empty children sequence. -/
theorem c7_witness :
    (sampleRootEmpty.children = none ∨
      sampleRootEmpty.children = some ([] : List HierarchyNode)) ∧
    convertToCSV sampleRootEmpty = "Depth1,Depth2,Depth3" :=
  ⟨Or.inr rfl, (c7_header_and_join sampleRootEmpty).2.2 (Or.inr rfl)⟩

/-- C8: `convertToCSV` is total over all finite acyclic trees: the
recursion depth of the traversal is bounded by 4 (the depth-3 cutoff), so
with any fuel of at least 4 the fuel-indexed traversal never exhausts its
fuel (its only failure mode) and `convertToCSVFuel` returns exactly
`some (convertToCSV t)` on every input. -/
theorem c8_total (t : HierarchyNode) (fuel : Nat) (h : 4 ≤ fuel) :
    convertToCSVFuel fuel t = some (convertToCSV t) := by
  unfold convertToCSVFuel convertToCSV
  rw [(fuel_complete fuel).1 t 0 [] (by omega) (by omega)]
  rfl

/-- Witness for C8 with fuel 4 on a concrete tree. -/
theorem c8_witness :
    4 ≤ 4 ∧ convertToCSVFuel 4 sampleRootAB = some (convertToCSV sampleRootAB) :=
  ⟨by decide, c8_total sampleRootAB 4 (by decide)⟩

/-- C9 counterexample: the claim that both filename parts use the local
date/time fails — at 1970-01-01T22:00:00Z in a UTC+9 timezone the code
(`toISOString` date, `toTimeString` time) names the file with the UTC date
`1970-01-01`, while the claimed local-date naming gives `1970-01-02`. -/
theorem c9_counterexample :
    exportFilename sampleDate ≠ claimedFilename sampleDate ∧
    exportFilename sampleDate = "industry-analysis-1970-01-01-07-00-00.csv" ∧
    claimedFilename sampleDate = "industry-analysis-1970-01-02-07-00-00.csv" :=
  ⟨by decide, by decide, by decide⟩

/-- C9 amended: the filename is `industry-analysis-<date>-<time>.csv` where
the date part is the UTC calendar date of the instant (`toISOString`) and
the time part is the local wall-clock time (`toTimeString`); it agrees with
the claimed all-local naming exactly when the UTC date and the local date
of the instant coincide (for example under a zero timezone offset). -/
theorem c9_filename_parts (d : JsDate)
    (h : utcDateString d = localDateString d) :
    exportFilename d =
      "industry-analysis-" ++ utcDateString d ++ "-" ++ localTimeString d ++ ".csv" ∧
    exportFilename d = claimedFilename d := by
  refine ⟨rfl, ?_⟩
  unfold exportFilename claimedFilename
  rw [h]

/-- Witness for the amended C9 at a zero-offset instant. -/
theorem c9_witness :
    utcDateString sampleDateZeroOffset = localDateString sampleDateZeroOffset ∧
    exportFilename sampleDateZeroOffset = claimedFilename sampleDateZeroOffset :=
  ⟨by decide, (c9_filename_parts sampleDateZeroOffset (by decide)).2⟩

/-- C10: `convertToCSV` is not injective — the root whose depth-1 child
`Tech` is a leaf and the root whose child `Tech` has a single child with
the empty-string name are distinct trees with identical CSV output (data
row `Tech,,`), so the original tree cannot be reconstructed from the
export. -/
theorem c10_not_injective :
    sampleTechLeaf ≠ sampleTechEmptyName ∧
    convertToCSV sampleTechLeaf = convertToCSV sampleTechEmptyName ∧
    convertToCSV sampleTechLeaf = "Depth1,Depth2,Depth3\nTech,," := by
  refine ⟨?_, by decide, by decide⟩
  intro h
  simp [sampleTechLeaf, sampleTechEmptyName, leafNode] at h
